import Mathlib

/-!
Verification of the metrics aggregation engine of the `hvc` recruiting
dashboard.

The development shallowly embeds the engine's pure logic:

* the record normalizer `getPropertyValue` (src/server/notion.ts:55-92),
* the candidate entity and its filter predicates — overdue, high-value,
  pending-human-review, HR-backlog (src/server/notion.ts,
  src/api/ceo-metrics.ts, and the api handler variants),
* the week-start and daily-bucketing aggregators of the CEO-metrics
  endpoints,
* the cumulative trend series and percentage-rate computations,
* the paginated collection fetch against the remote store.

Modelling conventions:

* JavaScript numbers that carry scores and hour counts are modelled as `ℚ`
  (they are exact decimal values in the data store; no float rounding is
  exercised by the embedded code paths).
* `null` becomes `Option.none`; the JS idiom `x || null` on strings becomes
  `emptyStrToNull`.
* Calendar days are modelled as days-since-epoch integers.  The source keys
  its day buckets by `toISOString().split('T')[0]` strings; ISO date strings
  are in an order-preserving bijection with epoch-day numbers, so equality
  and ordering of day keys are preserved by the model.
* `Math.round` is `jsRound x = ⌊x + 1/2⌋` (JavaScript rounds half toward
  positive infinity).
* The remote store (out of scope of the repository, specified at its
  boundary) is modelled as the list of result pages it would serve, plus the
  documented query semantics: filter expressions evaluate pointwise and the
  sort specification sorts by the named property.
-/

/-! ## Record normalizer (src/server/notion.ts:55-92) -/

/-- The value carried by a `formula` property, tagged by the formula's
declared result kind.  `funsupported` stands for any formula result kind
other than number/string/boolean/date (the code's final `return null`). -/
inductive NotionFormula where
  | fnumber (n : Option ℚ)
  | fstring (s : Option String)
  | fboolean (b : Option Bool)
  | fdate (start : Option String)
  | funsupported
deriving DecidableEq

/-- A raw Notion property, tagged by its field kind exactly as matched by the
`switch (prop.type)` in `getPropertyValue`.  `other` is the `default` branch:
any field kind not recognized by the switch. -/
inductive NotionProp where
  | title (segs : List String)
  | rich_text (segs : List String)
  | select (name : Option String)
  | status (name : Option String)
  | number (n : Option ℚ)
  | checkbox (b : Bool)
  | url (u : Option String)
  | date (start : Option String)
  | created_time (t : String)
  | last_edited_time (t : String)
  | formula (f : NotionFormula)
  | other
deriving DecidableEq

/-- A normalized value: string, number or boolean.  `getPropertyValue`
returns `Option NValue`, with `none` playing the role of JS `null`. -/
inductive NValue where
  | s (v : String)
  | n (v : ℚ)
  | b (v : Bool)
deriving DecidableEq

/-- The JS idiom `str || null`: an empty string collapses to null. -/
def emptyStrToNull (s : String) : Option String :=
  if s = "" then none else some s

/-- Shallow embedding of `getPropertyValue(properties, key)`
(src/server/notion.ts:55-92).  The property bag is an association list; a
missing key is the `if (!prop) return null` branch.  The function is total by
construction, which is the embedded form of "never throws". -/
def getPropertyValue (properties : List (String × NotionProp)) (key : String) :
    Option NValue :=
  match properties.lookup key with
  | Option.none => none
  | Option.some p =>
    match p with
    | NotionProp.title segs => (emptyStrToNull (String.join segs)).map NValue.s
    | NotionProp.rich_text segs => (emptyStrToNull (String.join segs)).map NValue.s
    | NotionProp.select name => (name.bind emptyStrToNull).map NValue.s
    | NotionProp.status name => (name.bind emptyStrToNull).map NValue.s
    | NotionProp.number n => n.map NValue.n
    | NotionProp.checkbox b => some (NValue.b b)
    | NotionProp.url u => (u.bind emptyStrToNull).map NValue.s
    | NotionProp.date start => (start.bind emptyStrToNull).map NValue.s
    | NotionProp.created_time t => (emptyStrToNull t).map NValue.s
    | NotionProp.last_edited_time t => (emptyStrToNull t).map NValue.s
    | NotionProp.formula f =>
      match f with
      | NotionFormula.fnumber n => n.map NValue.n
      | NotionFormula.fstring s => s.map NValue.s
      | NotionFormula.fboolean b => b.map NValue.b
      | NotionFormula.fdate start => (start.bind emptyStrToNull).map NValue.s
      | NotionFormula.funsupported => none
    | NotionProp.other => none

/-! ## Candidate entity and filter predicates -/

/-- The flat Candidate entity produced by `mapPageToCandidate`
(src/server/notion.ts:97-126).  Field defaults mirror the mapper's defaults
for absent source fields (`'Unknown'` name, `false` booleans, null
elsewhere). -/
structure Candidate where
  id : String := ""
  name : String := "Unknown"
  role : Option String := none
  status : Option String := none
  priority : Option String := none
  stratification : Option String := none
  hotCandidate : Bool := false
  hoursSinceLastActivity : Option ℚ := none
  interviewStatus : Option String := none
  aiScore : Option ℚ := none
  humanScore : Option ℚ := none
  dateAdded : Option String := none
  aiProcessedAt : Option String := none
  cvVerifiedByLynn : Option String := none
  passedHumanFilter : Bool := false
deriving DecidableEq

/-- The overdue filter of the overdue-candidates view
(src/server/notion.ts:210-214): a candidate with no tracked activity is
treated as needing follow-up (fail open), otherwise strictly more than 24
hours counts. -/
def isOverdueFollowUp (hoursSinceLastActivity : Option ℚ) : Bool :=
  match hoursSinceLastActivity with
  | none => true
  | some h => decide (24 < h)

/-- The `isOverdue` flag of the ceo-metrics handler variant
(src/unnamed/part_002:79): `hoursSinceLastActivity !== null &&
hoursSinceLastActivity > 24` — fail closed on null. -/
def isOverdue (hoursSinceLastActivity : Option ℚ) : Bool :=
  match hoursSinceLastActivity with
  | none => false
  | some h => decide (24 < h)

/-- The high-value disjunction over the raw selected labels
(src/unnamed/part_002:78 and the `isHVC` helper of the second handler in the
same file, lines 332-342). -/
def isHvc (hotCandidate priority stratification : Option String) : Bool :=
  hotCandidate == some "Hot Candidate 🔥" || priority == some "1st" ||
    stratification == some "H"

/-- The high-value predicate over a normalized Candidate, with
`hotCandidate` the boolean derived by `mapPageToCandidate`
(src/server/notion.ts:108) from the exact label match. -/
def isHVC (c : Candidate) : Bool :=
  c.hotCandidate || c.priority == some "1st" || c.stratification == some "H"

/-- Statuses counted as the HR backlog (src/server/notion.ts:450). -/
def hrBacklogStatuses : List String := ["HR Screening", "HM CV Screening"]

/-- The HR-backlog filter (src/server/notion.ts:451-453, identical in
src/api/ceo-metrics.ts:227-232): `aiScore !== null && aiScore >= 7 && status
&& hrBacklogStatuses.includes(status)`. -/
def hrBacklogPred (c : Candidate) : Bool :=
  match c.aiScore, c.status with
  | some a, some s => decide (7 ≤ a) && hrBacklogStatuses.contains s
  | _, _ => false

/-- The HR-backlog list feeding both `totalHrBacklog` and
`hrBacklogCandidates` (src/server/notion.ts:451-453 and 498-507). -/
def hrBacklog (cands : List Candidate) : List Candidate :=
  cands.filter hrBacklogPred

/-- The pending-human-review query filter sent to the store by
`getPendingHumanReview` (src/server/notion.ts:229-266): AI Processed At
is-not-empty, CV Verified by Lynn is-empty, Passed Human Filter equals false,
Status does-not-equal either rejected status. -/
def pendingHumanReviewFilter (c : Candidate) : Bool :=
  c.aiProcessedAt.isSome && c.cvVerifiedByLynn.isNone &&
    c.passedHumanFilter == false &&
    c.status != some "Company Rejected" && c.status != some "Candidate Rejected"

/-- Sort comparator for the `AI Processed At` ascending sort specification
(src/server/notion.ts:267-273).  ISO timestamps compare chronologically as
strings; an absent date sorts first (it cannot occur past the filter). -/
def aiProcessedLe (a b : Candidate) : Bool :=
  decide (a.aiProcessedAt.getD "" ≤ b.aiProcessedAt.getD "")

/-- The record set returned by `getPendingHumanReview`
(src/server/notion.ts:223-280), with the remote store's documented query
semantics (pointwise filter, sort by the named property) applied to the full
database. -/
def getPendingHumanReview (db : List Candidate) : List Candidate :=
  (db.filter pendingHumanReviewFilter).mergeSort aiProcessedLe

/-- The query filter of the api handler variant of the pending-review
endpoint (src/api/pending-review.ts:111-128): Status equals HR Screening or
HM Screening. -/
def pendingReviewApiFilter (c : Candidate) : Bool :=
  c.status == some "HR Screening" || c.status == some "HM Screening"

/-- Sort comparator for the `Date Added` ascending sort of the api handler
variant (src/api/pending-review.ts:129-136). -/
def dateAddedLe (a b : Candidate) : Bool :=
  decide (a.dateAdded.getD "" ≤ b.dateAdded.getD "")

/-- The record set returned by the api handler variant of the pending-review
endpoint (src/api/pending-review.ts:104-149). -/
def pendingReviewApi (db : List Candidate) : List Candidate :=
  (db.filter pendingReviewApiFilter).mergeSort dateAddedLe

/-- A candidate accepted by the api pending-review variant that violates
three of the pending-human-review conditions. -/
def pendingReviewCex : Candidate :=
  { status := some "HR Screening", passedHumanFilter := true,
    cvVerifiedByLynn := some "2025-01-01" }

/-! ## Week start (src/server/notion.ts:294-300) -/

/-- JS `Date.prototype.getDay` on an epoch-day number: day 0 (1970-01-01)
was a Thursday (`getDay() == 4`); Sunday is 0. -/
def jsGetDay (d : Int) : Int := (d + 4) % 7

/-- Shallow embedding of `getWeekStart` (src/server/notion.ts:294-300).
`setDate(getDate() - day + (day == 0 ? -6 : 1))` shifts the date by
`-day + (day == 0 ? -6 : 1)` days (JS normalizes day-of-month over- and
underflow to exactly that day shift). -/
def getWeekStart (d : Int) : Int :=
  d - jsGetDay d + (if jsGetDay d = 0 then -6 else 1)

/-! ## Daily bucketing with a 30-day trailing window -/

/-- The candidate shape parsed by the ceo-metrics endpoint variants
(src/api/ceo-metrics.ts:83-98), with the day the candidate was added
pre-split from the timestamp (`dateAddedDay`). -/
structure MetricsCandidate where
  dateAddedDay : Option Int := none
  hoursSinceLastActivity : Option ℚ := none
  aiScore : Option ℚ := none
  humanScore : Option ℚ := none
  status : Option String := none
  role : Option String := none
deriving DecidableEq

/-- The 30 calendar days ending today inclusive, oldest first
(src/server/notion.ts:339-344). -/
def allDays (today : Int) : List Int :=
  (List.range 30).map (fun (i : Nat) => today - 29 + (i : Int))

/-- JS `Math.round`: round half toward positive infinity. -/
def jsRound (x : ℚ) : Int := ⌊x + 1 / 2⌋

/-- One bucket of the response-time trend: date, rounded average hours (null
when the day had no contributing records) and contributing count. -/
structure DayBucket where
  date : Int
  avgHours : Option Int
  count : Nat
deriving DecidableEq

/-- The per-day accumulation `responseTimeByDay` (src/server/notion.ts:
426-436): total hours and count over candidates whose added-day matches and
whose hours field is non-null. -/
def responseTimeByDay (cands : List MetricsCandidate) (day : Int) : ℚ × Nat :=
  cands.foldl (fun acc c =>
    match c.dateAddedDay, c.hoursSinceLastActivity with
    | some d, some h => if d = day then (acc.1 + h, acc.2 + 1) else acc
    | _, _ => acc) (0, 0)

/-- The response-time trend (src/server/notion.ts:438-445): one bucket per
day of the 30-day window; a day with no data is emitted with null average
and zero count, never omitted. -/
def responseTimeTrend (today : Int) (cands : List MetricsCandidate) :
    List DayBucket :=
  (allDays today).map (fun day =>
    let data := responseTimeByDay cands day
    if 0 < data.2 then
      { date := day, avgHours := some (jsRound (data.1 / (data.2 : ℚ))),
        count := data.2 }
    else { date := day, avgHours := none, count := 0 })

/-- The HVC-with-both-scores filter (src/server/notion.ts:376-378):
`aiScore !== null && aiScore >= 7 && humanScore !== null`. -/
def hvcsWithBothScores (cands : List MetricsCandidate) : List MetricsCandidate :=
  cands.filter (fun c =>
    match c.aiScore with
    | some a => decide (7 ≤ a) && c.humanScore.isSome
    | none => false)

/-- The per-day accumulation `aiHumanDeltaByDay` (src/server/notion.ts:
380-390): total (human - ai) delta and count per added-day over the
HVC-with-both-scores set. -/
def aiHumanDeltaByDay (cands : List MetricsCandidate) (day : Int) : ℚ × Nat :=
  (hvcsWithBothScores cands).foldl (fun acc c =>
    match c.dateAddedDay, c.aiScore, c.humanScore with
    | some d, some a, some h => if d = day then (acc.1 + (h - a), acc.2 + 1) else acc
    | _, _, _ => acc) (0, 0)

/-- One bucket of the AI-vs-human trend: date, average delta rounded to one
decimal place (null on empty days) and contributing count. -/
structure DeltaBucket where
  date : Int
  avgDelta : Option ℚ
  count : Nat
deriving DecidableEq

/-- The AI-vs-human trend (src/server/notion.ts:392-399): maps the 30-day
window to buckets and then drops every bucket with zero count
(`.filter(d => d.count > 0)` — "Only days with data"). -/
def aiVsHumanTrend (today : Int) (cands : List MetricsCandidate) :
    List DeltaBucket :=
  ((allDays today).map (fun day =>
    let data := aiHumanDeltaByDay cands day
    if 0 < data.2 then
      { date := day,
        avgDelta := some ((jsRound (data.1 / (data.2 : ℚ) * 10) : ℚ) / 10),
        count := data.2 }
    else { date := day, avgDelta := none, count := 0 })).filter
    (fun b => 0 < b.count)

/-- JS object update `rolesByDay[day][role] = (rolesByDay[day][role] || 0) + 1`
on an insertion-ordered association list: increment an existing role's count
or append a new role with count 1. -/
def bumpRole (m : List (String × Nat)) (role : String) : List (String × Nat) :=
  match m with
  | [] => [(role, 1)]
  | (r, n) :: rest =>
    if r = role then (r, n + 1) :: rest else (r, n) :: bumpRole rest role

/-- The per-day role counts `rolesByDay[day]` (src/server/notion.ts:463-475):
every candidate with a non-null added day contributes one to its role's count
(role defaulting to "Unknown") on its day.  The source builds one map keyed
by day in a single pass over the candidates; this extracts one day's entry.
-/
def rolesByDayMap (cands : List MetricsCandidate) (day : Int) :
    List (String × Nat) :=
  cands.foldl (fun m c =>
    match c.dateAddedDay with
    | some d => if d = day then bumpRole m (c.role.getD "Unknown") else m
    | none => m) []

/-- One bucket of `applicationsByDay`: date, total applications for the day
and the per-role counts that the source spreads into the bucket object. -/
structure AppsBucket where
  date : Int
  total : Nat
  roles : List (String × Nat)
deriving DecidableEq

/-- `applicationsByDay` (src/server/notion.ts:477-481): one bucket per day of
the 30-day window with `total` the sum of that day's role counts
(`Object.values(rolesByDay[day] || {}).reduce((a, b) => a + b, 0)`); a
day with no applications is emitted with total 0 and no roles, never
omitted. -/
def applicationsByDay (today : Int) (cands : List MetricsCandidate) :
    List AppsBucket :=
  (allDays today).map (fun day =>
    { date := day,
      total := ((rolesByDayMap cands day).map Prod.snd).sum,
      roles := rolesByDayMap cands day })

/-! ## Cumulative trend series (src/unnamed/part_002:148-177) -/

/-- One point of the HR-backlog cumulative trend. -/
structure BacklogPoint where
  date : Int
  count : Nat
  newItems : Nat
deriving DecidableEq

/-- The running-total loop of `backlogTrend` (src/unnamed/part_002:148-156):
`cumulativeCount += backlogByDay[day] || 0` before each point is emitted. -/
def backlogTrendGo (byDay : Int → Nat) (acc : Nat) : List Int → List BacklogPoint
  | [] => []
  | day :: rest =>
    { date := day, count := acc + byDay day, newItems := byDay day } ::
      backlogTrendGo byDay (acc + byDay day) rest

/-- `backlogTrend` (src/unnamed/part_002:148-156) over a day-ordered window
and the per-day new-item counts `backlogByDay[day] || 0`. -/
def backlogTrend (days : List Int) (byDay : Int → Nat) : List BacklogPoint :=
  backlogTrendGo byDay 0 days

/-- One point of the overdue-HVC cumulative trend. -/
structure TrendPoint where
  date : Int
  count : Nat
deriving DecidableEq

/-- The running-total loop of `overdueHvcTrend`
(src/unnamed/part_002:170-177). -/
def overdueHvcTrendGo (byDay : Int → Nat) (acc : Nat) : List Int → List TrendPoint
  | [] => []
  | day :: rest =>
    { date := day, count := acc + byDay day } ::
      overdueHvcTrendGo byDay (acc + byDay day) rest

/-- `overdueHvcTrend` (src/unnamed/part_002:170-177). -/
def overdueHvcTrend (days : List Int) (byDay : Int → Nat) : List TrendPoint :=
  overdueHvcTrendGo byDay 0 days

/-! ## Paginated collection fetch -/

/-- One request issued to the remote store's query operation: the
continuation token passed as `start_cursor` and the requested page size. -/
structure PageRequest where
  startCursor : Option Nat
  pageSize : Nat
deriving DecidableEq

/-- The records of the store's response page for a given cursor.  The store
is modelled as the list of result pages it serves; an absent cursor starts at
the first page. -/
def queryPageResults (pages : List (List α)) (cursor : Option Nat) : List α :=
  pages.getD (cursor.getD 0) []

/-- The store's `has_more` flag for a given cursor: only the final page
reports no further pages. -/
def queryPageHasMore (pages : List (List α)) (cursor : Option Nat) : Bool :=
  decide (cursor.getD 0 + 1 < pages.length)

/-- The store's `next_cursor` continuation token for a given cursor. -/
def queryPageNextCursor (pages : List (List α)) (cursor : Option Nat) : Option Nat :=
  if cursor.getD 0 + 1 < pages.length then some (cursor.getD 0 + 1) else none

/-- The `while (hasMore)` paging loop shared by `getCEOMetrics` and
`getAwaitingReview` (src/server/notion.ts:313-334 and 532-562) and by the
api ceo-metrics handler (src/api/ceo-metrics.ts:59-80): accumulate each
page's results and re-query with `start_cursor := next_cursor` and
`page_size: 100` until `has_more` is false.  The loop terminates because the
store serves finitely many pages; the fuel argument carries that bound and
is never exhausted when it starts at `pages.length + 1`.  Alongside the
records the loop returns the trace of requests it issued. -/
def fetchAllGo (pages : List (List α)) :
    Nat → Option Nat → List α × List PageRequest
  | 0, _ => ([], [])
  | fuel + 1, cursor =>
    let results := queryPageResults pages cursor
    let req : PageRequest := { startCursor := cursor, pageSize := 100 }
    if queryPageHasMore pages cursor then
      let rest := fetchAllGo pages fuel (queryPageNextCursor pages cursor)
      (results ++ rest.1, req :: rest.2)
    else
      (results, [req])

/-- The full paginated fetch: start with no cursor and loop. -/
def fetchAllPages (pages : List (List α)) : List α × List PageRequest :=
  fetchAllGo pages (pages.length + 1) none

/-- The single unpaginated query of the legacy ceo-metrics handler
(second handler in src/unnamed/part_002, lines 374-383): one `query` call,
no cursor loop — only the first result page is ever received. -/
def fetchSingleQuery (pages : List (List α)) : List α :=
  queryPageResults pages none

/-! ## Percentage rates -/

/-- The per-bucket conversion rate of `hvcQuality`
(src/unnamed/part_002:477-489): `rate = total > 0 ? converted/total*100 : 0`
then `Math.round(rate * 10) / 10`. -/
def hvcQualityRate (total converted : Nat) : ℚ :=
  let rate : ℚ := if 0 < total then ((converted : ℚ) / (total : ℚ)) * 100 else 0
  (jsRound (rate * 10) : ℚ) / 10

/-- The `conversionRate` summary of the simplified `getCEOMetrics`
(src/unnamed/part_000:389-394): `total > 0 ?
Math.round(withInterview/total*100) : 0`. -/
def interviewConversionRate (withInterview total : Nat) : Int :=
  if 0 < total then jsRound (((withInterview : ℚ) / (total : ℚ)) * 100) else 0

/-! ## Theorems -/

/-- C1 counterexample: the two overdue predicates disagree on a null
`hoursSinceLastActivity` — the overdue-candidates view is fail open but the
ceo-metrics handler variant is fail closed, so the claimed rule does not hold
in every endpoint variant. -/
theorem C1_overdue_counterexample :
    isOverdueFollowUp none = true ∧ isOverdue none = false := by
  decide

/-- C1 (amended): the fail-open rule (null or strictly more than 24 hours)
holds for the overdue-candidates view `getHighValueCandidates`; the
ceo-metrics handler variant instead requires a non-null value strictly above
24 (fail closed).  In both, exactly 24 is not overdue and 25 is. -/
theorem C1_overdue_amended (h : Option ℚ) :
    (isOverdueFollowUp h = true ↔ h = none ∨ ∃ x, h = some x ∧ 24 < x) ∧
    (isOverdue h = true ↔ ∃ x, h = some x ∧ 24 < x) ∧
    isOverdueFollowUp none = true ∧ isOverdue none = false ∧
    isOverdueFollowUp (some 24) = false ∧ isOverdue (some 24) = false ∧
    isOverdueFollowUp (some 25) = true ∧ isOverdue (some 25) = true := by
  refine ⟨?_, ?_, by decide, by decide, by decide, by decide, by decide, by decide⟩
  · cases h <;> simp [isOverdueFollowUp]
  · cases h <;> simp [isOverdue]

/-- C1 witness: the amended theorem applied at a concrete input. -/
theorem C1_overdue_amended_witness : isOverdue (some 25) = true :=
  (C1_overdue_amended (some 25)).2.1.mpr ⟨25, rfl, by norm_num⟩

/-- C3: a candidate is high-value iff it is hot, or first priority, or
stratification H; the base candidate with none of the three is not HVC and
flipping any single condition flips the result. -/
theorem C3_hvc_predicate (c : Candidate) (hot p s : Option String) :
    (isHVC c = true ↔
      c.hotCandidate = true ∨ c.priority = some "1st" ∨
        c.stratification = some "H") ∧
    (isHvc hot p s = true ↔
      hot = some "Hot Candidate 🔥" ∨ p = some "1st" ∨ s = some "H") ∧
    isHVC { hotCandidate := false, priority := some "2nd",
            stratification := some "M" } = false ∧
    isHVC { hotCandidate := true, priority := some "2nd",
            stratification := some "M" } = true ∧
    isHVC { hotCandidate := false, priority := some "1st",
            stratification := some "M" } = true ∧
    isHVC { hotCandidate := false, priority := some "2nd",
            stratification := some "H" } = true := by
  refine ⟨?_, ?_, by decide, by decide, by decide, by decide⟩
  · simp [isHVC, or_assoc]
  · simp [isHvc, or_assoc]

/-- C3 witness: the predicate equivalence applied at a concrete candidate. -/
theorem C3_hvc_predicate_witness : isHVC { hotCandidate := true } = true :=
  (C3_hvc_predicate { hotCandidate := true } none none none).1.mpr (Or.inl rfl)

/-- C4: the normalizer is a total function (by construction in this
embedding); an absent key yields null, an unrecognized field kind yields
null, a formula of unsupported result kind yields null, and an absent field
is indistinguishable from a present field that resolves to null. -/
theorem C4_normalizer_total (props : List (String × NotionProp)) (key : String) :
    (props.lookup key = none → getPropertyValue props key = none) ∧
    (props.lookup key = some NotionProp.other →
      getPropertyValue props key = none) ∧
    (props.lookup key = some (NotionProp.formula NotionFormula.funsupported) →
      getPropertyValue props key = none) ∧
    getPropertyValue [] key = none ∧
    getPropertyValue [(key, NotionProp.select none)] key = none := by
  refine ⟨fun h => ?_, fun h => ?_, fun h => ?_, ?_, ?_⟩
  · simp [getPropertyValue, h]
  · simp [getPropertyValue, h]
  · simp [getPropertyValue, h]
  · simp [getPropertyValue]
  · simp [getPropertyValue, List.lookup]

/-- C4 witness: the normalizer theorem applied at concrete property bags. -/
theorem C4_normalizer_total_witness :
    getPropertyValue [("Status", NotionProp.other)] "Status" = none ∧
    getPropertyValue [("Status", NotionProp.other)] "Name" = none :=
  ⟨(C4_normalizer_total [("Status", NotionProp.other)] "Status").2.1 (by decide),
   (C4_normalizer_total [("Status", NotionProp.other)] "Name").1 (by decide)⟩

/-- C6: `getWeekStart` lands on a Monday; a Sunday input moves 6 days back,
a Wednesday input 2 days back, and the result is never more than 6 days
before the input. -/
theorem C6_week_start (d : Int) :
    jsGetDay (getWeekStart d) = 1 ∧
    (jsGetDay d = 0 → getWeekStart d = d - 6) ∧
    (jsGetDay d = 3 → getWeekStart d = d - 2) ∧
    getWeekStart d ≤ d ∧ d - getWeekStart d ≤ 6 := by
  refine ⟨?_, fun h => ?_, fun h => ?_, ?_, ?_⟩ <;>
    simp only [getWeekStart, jsGetDay] at * <;> split_ifs <;> omega

/-- C6 witness: the week-start theorem applied at a concrete Sunday (epoch
day 3, 1970-01-04) and a concrete Wednesday (epoch day 6, 1970-01-07). -/
theorem C6_week_start_witness :
    getWeekStart 3 = 3 - 6 ∧ getWeekStart 6 = 6 - 2 :=
  ⟨(C6_week_start 3).2.1 (by decide), (C6_week_start 6).2.2.1 (by decide)⟩

/-- C9: a zero total yields a rate of exactly zero in both rate
computations; a positive total yields `count/total*100` with each variant's
rounding (one decimal place for `hvcQuality`, nearest integer for
`conversionRate`). -/
theorem C9_rate_zero_total (total converted withInterview : Nat) :
    hvcQualityRate 0 converted = 0 ∧
    interviewConversionRate withInterview 0 = 0 ∧
    (0 < total → hvcQualityRate total converted =
      (jsRound ((converted : ℚ) / (total : ℚ) * 100 * 10) : ℚ) / 10) ∧
    (0 < total → interviewConversionRate withInterview total =
      jsRound ((withInterview : ℚ) / (total : ℚ) * 100)) := by
  refine ⟨?_, ?_, fun ht => ?_, fun ht => ?_⟩
  · norm_num [hvcQualityRate, jsRound]
  · norm_num [interviewConversionRate]
  · simp [hvcQualityRate, ht]
  · simp [interviewConversionRate, ht]

/-- C9 witness: the rate theorem applied at concrete totals. -/
theorem C9_rate_zero_total_witness :
    hvcQualityRate 0 5 = 0 ∧
    interviewConversionRate 1 2 = jsRound ((1 : ℚ) / (2 : ℚ) * 100) :=
  ⟨(C9_rate_zero_total 0 5 0).1, (C9_rate_zero_total 2 1 1).2.2.2 (by decide)⟩

/-- C10: a candidate is in the HR backlog iff it is in the fetched set, its
AI score is non-null and at least 7, and its status is exactly HR Screening
or HM CV Screening; a null AI score or null status always excludes it. -/
theorem C10_hr_backlog_membership (cands : List Candidate) (c : Candidate) :
    (c ∈ hrBacklog cands ↔
      c ∈ cands ∧ (∃ a, c.aiScore = some a ∧ 7 ≤ a) ∧
        (c.status = some "HR Screening" ∨ c.status = some "HM CV Screening")) ∧
    (c.aiScore = none → hrBacklogPred c = false) ∧
    (c.status = none → hrBacklogPred c = false) := by
  refine ⟨?_, fun h => ?_, fun h => ?_⟩
  · cases hA : c.aiScore <;> cases hS : c.status <;>
      simp [hrBacklog, List.mem_filter, hrBacklogPred, hA, hS,
        hrBacklogStatuses, and_assoc]
  · cases c.status <;> simp [hrBacklogPred, h]
  · cases c.aiScore <;> simp [hrBacklogPred, h]

/-- C10 witness: backlog membership applied at a concrete candidate. -/
theorem C10_hr_backlog_membership_witness :
    ({ status := some "HR Screening", aiScore := some 8 } : Candidate) ∈
      hrBacklog [{ status := some "HR Screening", aiScore := some 8 }] :=
  (C10_hr_backlog_membership _ _).1.mpr
    ⟨by simp, ⟨8, rfl, by norm_num⟩, Or.inl rfl⟩

/-- A day with no contributing candidate accumulates nothing: the per-day
fold returns the empty accumulator. -/
theorem responseTimeByDay_eq_zero (cands : List MetricsCandidate) (day : Int)
    (h : ∀ c ∈ cands,
      c.dateAddedDay ≠ some day ∨ c.hoursSinceLastActivity = none) :
    responseTimeByDay cands day = (0, 0) := by
  have H : ∀ (l : List MetricsCandidate),
      (∀ c ∈ l, c.dateAddedDay ≠ some day ∨ c.hoursSinceLastActivity = none) →
      ∀ acc : ℚ × Nat,
        l.foldl (fun acc c =>
          match c.dateAddedDay, c.hoursSinceLastActivity with
          | some d, some h => if d = day then (acc.1 + h, acc.2 + 1) else acc
          | _, _ => acc) acc = acc := by
    intro l
    induction l with
    | nil => intro _ acc; rfl
    | cons c cs ih =>
      intro hl acc
      simp only [List.foldl_cons]
      have hstep : (match c.dateAddedDay, c.hoursSinceLastActivity with
          | some d, some h => if d = day then (acc.1 + h, acc.2 + 1) else acc
          | _, _ => acc) = acc := by
        rcases hl c (List.mem_cons_self c cs) with hd | hh
        · cases hD : c.dateAddedDay with
          | none => cases c.hoursSinceLastActivity <;> rfl
          | some d =>
            cases c.hoursSinceLastActivity with
            | none => rfl
            | some hv =>
              have hne : d ≠ day := by
                intro hEq; exact hd (by rw [hD, hEq])
              simp [hne]
        · rw [hh]; cases c.dateAddedDay <;> rfl
      rw [hstep]
      exact ih (fun c' hc' => hl c' (List.mem_cons_of_mem _ hc')) acc
  exact H cands h (0, 0)

/-- A day on which no candidate was added accumulates no role counts. -/
theorem rolesByDayMap_eq_nil (cands : List MetricsCandidate) (day : Int)
    (h : ∀ c ∈ cands, c.dateAddedDay ≠ some day) :
    rolesByDayMap cands day = [] := by
  have H : ∀ (l : List MetricsCandidate),
      (∀ c ∈ l, c.dateAddedDay ≠ some day) →
      ∀ m : List (String × Nat),
        l.foldl (fun m c =>
          match c.dateAddedDay with
          | some d => if d = day then bumpRole m (c.role.getD "Unknown") else m
          | none => m) m = m := by
    intro l
    induction l with
    | nil => intro _ m; rfl
    | cons c cs ih =>
      intro hl m
      simp only [List.foldl_cons]
      have hstep : (match c.dateAddedDay with
          | some d => if d = day then bumpRole m (c.role.getD "Unknown") else m
          | none => m) = m := by
        cases hD : c.dateAddedDay with
        | none => rfl
        | some d =>
          have hne : d ≠ day := by
            intro hEq
            exact hl c (List.mem_cons_self c cs) (by rw [hD, hEq])
          simp [hne]
      rw [hstep]
      exact ih (fun c' hc' => hl c' (List.mem_cons_of_mem _ hc')) m
  exact H cands h []

/-- C2 counterexample: with no candidates at all, the AI-vs-human trend has
zero buckets, not 30 — days with zero matching records are dropped by its
trailing `.filter(d => d.count > 0)`, refuting the claim for this series. -/
theorem C2_daily_buckets_counterexample :
    aiVsHumanTrend 0 [] = [] ∧ (aiVsHumanTrend 0 []).length ≠ 30 := by
  decide

/-- C2 (amended): the gap-filled 30-day series `responseTimeTrend` and
`applicationsByDay` always contain exactly 30 buckets, one per calendar day
in chronological order, with zero-record days present as null-average (resp.
zero-total) buckets; the `aiVsHumanTrend` series however keeps only buckets
with at least one matching record. -/
theorem C2_daily_buckets_amended (today : Int) (cands : List MetricsCandidate) :
    (responseTimeTrend today cands).length = 30 ∧
    (responseTimeTrend today cands).map DayBucket.date = allDays today ∧
    ((responseTimeTrend today cands).map DayBucket.date).Pairwise (· < ·) ∧
    (∀ day ∈ allDays today,
      (∀ c ∈ cands,
        c.dateAddedDay ≠ some day ∨ c.hoursSinceLastActivity = none) →
      ({ date := day, avgHours := none, count := 0 } : DayBucket) ∈
        responseTimeTrend today cands) ∧
    (∀ b ∈ aiVsHumanTrend today cands, 0 < b.count) ∧
    (applicationsByDay today cands).length = 30 ∧
    (applicationsByDay today cands).map AppsBucket.date = allDays today ∧
    ((applicationsByDay today cands).map AppsBucket.date).Pairwise (· < ·) ∧
    (∀ day ∈ allDays today, (∀ c ∈ cands, c.dateAddedDay ≠ some day) →
      ({ date := day, total := 0, roles := [] } : AppsBucket) ∈
        applicationsByDay today cands) := by
  have hdates : (responseTimeTrend today cands).map DayBucket.date =
      allDays today := by
    rw [responseTimeTrend, List.map_map]
    have : ∀ a ∈ allDays today,
        (DayBucket.date ∘ fun day =>
          let data := responseTimeByDay cands day
          if 0 < data.2 then
            { date := day, avgHours := some (jsRound (data.1 / (data.2 : ℚ))),
              count := data.2 }
          else { date := day, avgHours := none, count := 0 }) a = a := by
      intro a _
      simp only [Function.comp]
      split <;> rfl
    rw [List.map_congr_left this]
    simp
  have hdates2 : (applicationsByDay today cands).map AppsBucket.date =
      allDays today := by
    rw [applicationsByDay, List.map_map]
    have : ∀ a ∈ allDays today,
        (AppsBucket.date ∘ fun day =>
          ({ date := day,
             total := ((rolesByDayMap cands day).map Prod.snd).sum,
             roles := rolesByDayMap cands day } : AppsBucket)) a = a :=
      fun a _ => rfl
    rw [List.map_congr_left this]
    simp
  have hpw : (allDays today).Pairwise (· < ·) := by
    rw [allDays]
    refine List.Pairwise.map _ ?_ (List.pairwise_lt_range 30)
    intro a b hab
    omega
  refine ⟨?_, hdates, ?_, ?_, ?_, ?_, hdates2, ?_, ?_⟩
  · have hlen := congrArg List.length hdates
    simpa [allDays] using hlen
  · rw [hdates]
    exact hpw
  · intro day hday hnone
    rw [responseTimeTrend]
    refine List.mem_map.mpr ⟨day, hday, ?_⟩
    simp [responseTimeByDay_eq_zero cands day hnone]
  · intro b hb
    have := (List.mem_filter.mp hb).2
    simpa using this
  · have hlen := congrArg List.length hdates2
    simpa [allDays] using hlen
  · rw [hdates2]
    exact hpw
  · intro day hday hnone
    rw [applicationsByDay]
    refine List.mem_map.mpr ⟨day, hday, ?_⟩
    simp [rolesByDayMap_eq_nil cands day hnone]

/-- C2 witness: the amended theorem applied at a concrete window and the
empty candidate set. -/
theorem C2_daily_buckets_amended_witness :
    (responseTimeTrend 0 []).length = 30 ∧
    ({ date := -29, avgHours := none, count := 0 } : DayBucket) ∈
      responseTimeTrend 0 [] :=
  ⟨(C2_daily_buckets_amended 0 []).1,
   (C2_daily_buckets_amended 0 []).2.2.2.1 (-29) (by decide)
     (fun c hc => absurd hc (List.not_mem_nil c))⟩

/-- Every point emitted by the running-total loop carries at least the
accumulator it started from. -/
theorem backlogTrendGo_le (byDay : Int → Nat) :
    ∀ (days : List Int) (acc : Nat) (q : BacklogPoint),
      q ∈ backlogTrendGo byDay acc days → acc ≤ q.count := by
  intro days
  induction days with
  | nil => intro acc q hq; simp [backlogTrendGo] at hq
  | cons d rest ih =>
    intro acc q hq
    simp only [backlogTrendGo, List.mem_cons] at hq
    rcases hq with rfl | hq
    · simp only []
      omega
    · exact le_trans (Nat.le_add_right _ _) (ih (acc + byDay d) q hq)

/-- Adjacent points of the running-total loop differ by exactly the later
point's new-item count. -/
theorem backlogTrendGo_chain (byDay : Int → Nat) :
    ∀ (days : List Int) (acc : Nat),
      List.Chain' (fun p q => q.count = p.count + q.newItems)
        (backlogTrendGo byDay acc days) := by
  intro days
  induction days with
  | nil => intro acc; simp [backlogTrendGo]
  | cons d rest ih =>
    intro acc
    cases rest with
    | nil => simp [backlogTrendGo]
    | cons d2 rest2 =>
      refine List.chain'_cons.mpr ⟨rfl, ?_⟩
      exact ih (acc + byDay d)

/-- The counts of the running-total loop are non-decreasing. -/
theorem backlogTrendGo_pairwise (byDay : Int → Nat) :
    ∀ (days : List Int) (acc : Nat),
      List.Pairwise (fun p q => p.count ≤ q.count)
        (backlogTrendGo byDay acc days) := by
  intro days
  induction days with
  | nil => intro acc; simp [backlogTrendGo]
  | cons d rest ih =>
    intro acc
    refine List.pairwise_cons.mpr ⟨?_, ih (acc + byDay d)⟩
    intro q hq
    exact le_trans (Nat.le_refl _) (backlogTrendGo_le byDay rest (acc + byDay d) q hq)

/-- Every point of the running-total loop records its own day's increment as
`newItems`. -/
theorem backlogTrendGo_newItems (byDay : Int → Nat) :
    ∀ (days : List Int) (acc : Nat) (p : BacklogPoint),
      p ∈ backlogTrendGo byDay acc days → p.newItems = byDay p.date := by
  intro days
  induction days with
  | nil => intro acc p hp; simp [backlogTrendGo] at hp
  | cons d rest ih =>
    intro acc p hp
    simp only [backlogTrendGo, List.mem_cons] at hp
    rcases hp with rfl | hp
    · rfl
    · exact ih (acc + byDay d) p hp

/-- Counterpart of `backlogTrendGo_le` for the overdue-HVC loop. -/
theorem overdueHvcTrendGo_le (byDay : Int → Nat) :
    ∀ (days : List Int) (acc : Nat) (q : TrendPoint),
      q ∈ overdueHvcTrendGo byDay acc days → acc ≤ q.count := by
  intro days
  induction days with
  | nil => intro acc q hq; simp [overdueHvcTrendGo] at hq
  | cons d rest ih =>
    intro acc q hq
    simp only [overdueHvcTrendGo, List.mem_cons] at hq
    rcases hq with rfl | hq
    · simp only []
      omega
    · exact le_trans (Nat.le_add_right _ _) (ih (acc + byDay d) q hq)

/-- Adjacent points of the overdue-HVC loop differ by exactly the later
point's day increment. -/
theorem overdueHvcTrendGo_chain (byDay : Int → Nat) :
    ∀ (days : List Int) (acc : Nat),
      List.Chain' (fun p q => q.count = p.count + byDay q.date)
        (overdueHvcTrendGo byDay acc days) := by
  intro days
  induction days with
  | nil => intro acc; simp [overdueHvcTrendGo]
  | cons d rest ih =>
    intro acc
    cases rest with
    | nil => simp [overdueHvcTrendGo]
    | cons d2 rest2 =>
      refine List.chain'_cons.mpr ⟨rfl, ?_⟩
      exact ih (acc + byDay d)

/-- Counterpart of `backlogTrendGo_pairwise` for the overdue-HVC loop. -/
theorem overdueHvcTrendGo_pairwise (byDay : Int → Nat) :
    ∀ (days : List Int) (acc : Nat),
      List.Pairwise (fun p q => p.count ≤ q.count)
        (overdueHvcTrendGo byDay acc days) := by
  intro days
  induction days with
  | nil => intro acc; simp [overdueHvcTrendGo]
  | cons d rest ih =>
    intro acc
    refine List.pairwise_cons.mpr ⟨?_, ih (acc + byDay d)⟩
    intro q hq
    exact overdueHvcTrendGo_le byDay rest (acc + byDay d) q hq

/-- C8: both cumulative series satisfy the running-total recurrence — every
point's count is the previous point's count plus that day's increment, and
the first point's count is its own day's increment (for `backlogTrend` the
increment is also recorded as `newItems`) — and the counts of both series
are non-decreasing (the per-day increments are counts, hence never
negative). -/
theorem C8_cumulative_trend (days : List Int) (byDay : Int → Nat) :
    List.Chain' (fun p q => q.count = p.count + q.newItems)
      (backlogTrend days byDay) ∧
    (∀ p, (backlogTrend days byDay).head? = some p → p.count = p.newItems) ∧
    (∀ p ∈ backlogTrend days byDay, p.newItems = byDay p.date) ∧
    List.Pairwise (fun p q => p.count ≤ q.count) (backlogTrend days byDay) ∧
    List.Pairwise (fun p q : TrendPoint => p.count ≤ q.count)
      (overdueHvcTrend days byDay) ∧
    List.Chain' (fun p q : TrendPoint => q.count = p.count + byDay q.date)
      (overdueHvcTrend days byDay) ∧
    (∀ p : TrendPoint, (overdueHvcTrend days byDay).head? = some p →
      p.count = byDay p.date) := by
  refine ⟨backlogTrendGo_chain byDay days 0, ?_, ?_, ?_, ?_,
    overdueHvcTrendGo_chain byDay days 0, ?_⟩
  · intro p hp
    cases days with
    | nil => simp [backlogTrend, backlogTrendGo] at hp
    | cons d rest =>
      simp only [backlogTrend, backlogTrendGo, List.head?_cons,
        Option.some_inj] at hp
      subst hp
      simp
  · exact fun p hp => backlogTrendGo_newItems byDay days 0 p hp
  · exact backlogTrendGo_pairwise byDay days 0
  · exact overdueHvcTrendGo_pairwise byDay days 0
  · intro p hp
    cases days with
    | nil => simp [overdueHvcTrend, overdueHvcTrendGo] at hp
    | cons d rest =>
      simp only [overdueHvcTrend, overdueHvcTrendGo, List.head?_cons,
        Option.some_inj] at hp
      subst hp
      simp

/-- C8 witness: the cumulative-trend theorem applied at a concrete window
and increment function. -/
theorem C8_cumulative_trend_witness :
    ({ date := 1, count := 3, newItems := 3 } : BacklogPoint).count =
      ({ date := 1, count := 3, newItems := 3 } : BacklogPoint).newItems :=
  (C8_cumulative_trend [1, 2] (fun _ => 3)).2.1
    { date := 1, count := 3, newItems := 3 } (by decide)

/-- With enough fuel, the paging loop starting at any cursor returns exactly
the concatenation of the remaining pages. -/
theorem fetchAllGo_fst {α : Type} (pages : List (List α)) :
    ∀ (fuel : Nat) (cursor : Option Nat), pages.length ≤ cursor.getD 0 + fuel →
      (fetchAllGo pages fuel cursor).1 =
        (pages.drop (cursor.getD 0)).flatten := by
  intro fuel
  induction fuel with
  | zero =>
    intro cursor hle
    rw [List.drop_eq_nil_of_le (by omega)]
    rfl
  | succ fuel ih =>
    intro cursor hle
    by_cases hM : cursor.getD 0 + 1 < pages.length
    · have hHM : queryPageHasMore pages cursor = true := by
        simp only [queryPageHasMore, decide_eq_true_eq]
        omega
      have hNC : queryPageNextCursor pages cursor = some (cursor.getD 0 + 1) := by
        simp only [queryPageNextCursor, if_pos hM]
      simp only [fetchAllGo, hHM, if_true, reduceIte, hNC]
      rw [ih (some (cursor.getD 0 + 1)) (by simp only [Option.getD_some]; omega)]
      rw [queryPageResults, List.getD_eq_getElem pages [] (by omega)]
      rw [List.drop_eq_getElem_cons (by omega : cursor.getD 0 < pages.length),
        List.flatten_cons]
      rfl
    · have hHM : queryPageHasMore pages cursor = false := by
        simp only [queryPageHasMore, decide_eq_false_iff_not]
        omega
      simp only [fetchAllGo, hHM, Bool.false_eq_true, if_false, reduceIte]
      by_cases hk : cursor.getD 0 < pages.length
      · rw [queryPageResults, List.getD_eq_getElem pages [] hk]
        rw [List.drop_eq_getElem_cons hk, List.drop_eq_nil_of_le (by omega),
          List.flatten_cons, List.flatten_nil, List.append_nil]
      · rw [queryPageResults, List.getD_eq_default pages [] (by omega),
          List.drop_eq_nil_of_le (by omega)]
        rfl

/-- The full paging loop returns the concatenation of all pages in order. -/
theorem fetchAllPages_eq_flatten {α : Type} (pages : List (List α)) :
    (fetchAllPages pages).1 = pages.flatten := by
  rw [fetchAllPages]
  have h := fetchAllGo_fst pages (pages.length + 1) none (by simp)
  simpa using h

/-- Every request the paging loop issues carries page size 100. -/
theorem fetchAllGo_pageSize {α : Type} (pages : List (List α)) :
    ∀ (fuel : Nat) (cursor : Option Nat) (r : PageRequest),
      r ∈ (fetchAllGo pages fuel cursor).2 → r.pageSize = 100 := by
  intro fuel
  induction fuel with
  | zero => intro cursor r hr; simp [fetchAllGo] at hr
  | succ fuel ih =>
    intro cursor r hr
    by_cases hM : queryPageHasMore pages cursor = true
    · simp only [fetchAllGo, hM, if_true, reduceIte, List.mem_cons] at hr
      rcases hr with rfl | hr
      · rfl
      · exact ih (queryPageNextCursor pages cursor) r hr
    · simp only [fetchAllGo, hM, Bool.false_eq_true, if_false, reduceIte,
        List.mem_singleton] at hr
      subst hr
      rfl

/-- C5: on a two-page store the paging loop (used by `getCEOMetrics`,
`getAwaitingReview` and the api ceo-metrics handler) returns both pages'
records in order, requesting the second page with the store's continuation
token and page size 100; the legacy ceo-metrics handler's single unpaginated
query returns only the first page, dropping the rest of the record set. -/
theorem C5_single_query_truncates :
    (fetchAllPages ([[1, 2], [3]] : List (List Nat))).1 = [1, 2, 3] ∧
    (fetchAllPages ([[1, 2], [3]] : List (List Nat))).2 =
      [{ startCursor := none, pageSize := 100 },
       { startCursor := some 1, pageSize := 100 }] ∧
    fetchSingleQuery ([[1, 2], [3]] : List (List Nat)) = [1, 2] ∧
    fetchSingleQuery ([[1, 2], [3]] : List (List Nat)) ≠
      ([[1, 2], [3]] : List (List Nat)).flatten := by
  decide

/-- C7 counterexample: the api pending-review variant returns a candidate
whose status is HR Screening even though it has no AI-processed timestamp,
has already passed the human filter, and has a CV-verified date — refuting
the claim that every variant of the endpoint enforces the four-condition
predicate. -/
theorem C7_pending_review_counterexample :
    pendingReviewApi [pendingReviewCex] = [pendingReviewCex] ∧
    pendingReviewCex.aiProcessedAt = none ∧
    pendingReviewCex.passedHumanFilter = true ∧
    pendingReviewCex.cvVerifiedByLynn ≠ none := by
  refine ⟨?_, rfl, rfl, by decide⟩
  rw [pendingReviewApi]
  have hf : List.filter pendingReviewApiFilter [pendingReviewCex] =
      [pendingReviewCex] := by decide
  rw [hf]
  exact List.perm_singleton.mp (List.mergeSort_perm [pendingReviewCex] dateAddedLe)

/-- C7 (amended): every candidate returned by `getPendingHumanReview`
satisfies the four pending-review conditions and the list is sorted by the
AI-processed timestamp ascending (longest wait first), and every candidate
passing the filter is returned; the api pending-review variant instead
returns exactly the candidates whose status is HR Screening or HM Screening,
sorted by Date Added ascending. -/
theorem C7_pending_review_amended (db : List Candidate) :
    (∀ c ∈ getPendingHumanReview db,
      c.aiProcessedAt ≠ none ∧ c.cvVerifiedByLynn = none ∧
        c.passedHumanFilter = false ∧ c.status ≠ some "Company Rejected" ∧
        c.status ≠ some "Candidate Rejected") ∧
    List.Pairwise
      (fun a b : Candidate =>
        a.aiProcessedAt.getD "" ≤ b.aiProcessedAt.getD "")
      (getPendingHumanReview db) ∧
    (∀ c ∈ db, pendingHumanReviewFilter c = true →
      c ∈ getPendingHumanReview db) ∧
    (∀ c, c ∈ pendingReviewApi db ↔
      c ∈ db ∧
        (c.status = some "HR Screening" ∨ c.status = some "HM Screening")) ∧
    List.Pairwise
      (fun a b : Candidate => a.dateAdded.getD "" ≤ b.dateAdded.getD "")
      (pendingReviewApi db) := by
  refine ⟨?_, ?_, ?_, ?_, ?_⟩
  · intro c hc
    rw [getPendingHumanReview, List.mem_mergeSort] at hc
    have hf := (List.mem_filter.mp hc).2
    simp only [pendingHumanReviewFilter, Bool.and_eq_true,
      Option.isSome_iff_ne_none, Option.isNone_iff_eq_none, beq_iff_eq,
      bne_iff_ne, ne_eq] at hf
    obtain ⟨⟨⟨⟨h1, h2⟩, h3⟩, h4⟩, h5⟩ := hf
    exact ⟨h1, h2, h3, h4, h5⟩
  · have htrans : ∀ a b c : Candidate, aiProcessedLe a b = true →
        aiProcessedLe b c = true → aiProcessedLe a c = true := by
      intro a b c hab hbc
      simp only [aiProcessedLe, decide_eq_true_eq] at hab hbc ⊢
      exact le_trans hab hbc
    have htotal : ∀ a b : Candidate,
        (aiProcessedLe a b || aiProcessedLe b a) = true := by
      intro a b
      simp only [aiProcessedLe, Bool.or_eq_true, decide_eq_true_eq]
      exact le_total _ _
    have hs := List.sorted_mergeSort htrans htotal
      (db.filter pendingHumanReviewFilter)
    rw [getPendingHumanReview]
    exact hs.imp (fun h => by simpa [aiProcessedLe] using h)
  · intro c hc hf
    rw [getPendingHumanReview, List.mem_mergeSort]
    exact List.mem_filter.mpr ⟨hc, hf⟩
  · intro c
    rw [pendingReviewApi, List.mem_mergeSort, List.mem_filter]
    simp [pendingReviewApiFilter]
  · have htrans : ∀ a b c : Candidate, dateAddedLe a b = true →
        dateAddedLe b c = true → dateAddedLe a c = true := by
      intro a b c hab hbc
      simp only [dateAddedLe, decide_eq_true_eq] at hab hbc ⊢
      exact le_trans hab hbc
    have htotal : ∀ a b : Candidate,
        (dateAddedLe a b || dateAddedLe b a) = true := by
      intro a b
      simp only [dateAddedLe, Bool.or_eq_true, decide_eq_true_eq]
      exact le_total _ _
    have hs := List.sorted_mergeSort htrans htotal
      (db.filter pendingReviewApiFilter)
    rw [pendingReviewApi]
    exact hs.imp (fun h => by simpa [dateAddedLe] using h)

/-- C7 witness: the amended theorem applied at a concrete one-candidate
database. -/
theorem C7_pending_review_amended_witness :
    ({ aiProcessedAt := some "2025-01-02" } : Candidate) ∈
      getPendingHumanReview [{ aiProcessedAt := some "2025-01-02" }] :=
  (C7_pending_review_amended [{ aiProcessedAt := some "2025-01-02" }]).2.2.1
    { aiProcessedAt := some "2025-01-02" } (List.mem_singleton.mpr rfl)
    (by decide)
